import Mathlib

/-!
Verification of the composite-key codec (`token/services/network/common/rws/keys/keys.go`)
and the balance aggregation loop (`integration/token/fungible/views/balance.go`) of
fabric-token-sdk, via a shallow embedding of the Go code into Lean.

Go strings are modelled as lists of byte values. The key codec scans raw bytes while the
attribute validator iterates decoded UTF-8 code points, exactly as the Go source does.
-/

namespace FTS

/-- A Go string: a finite sequence of bytes (each intended to be < 256). -/
abbrev GoStr := List Nat

/-- Decode the leading UTF-8 code point of a byte sequence, returning the code point and
the number of bytes it occupies. Mirrors Go `unicode/utf8` strict decoding: shortest form
only, surrogates rejected, code points at most U+10FFFF. Returns `none` on malformed
input. -/
def decodeUtf8 : GoStr → Option (Nat × Nat)
  | [] => none
  | b0 :: rest =>
    if b0 < 128 then some (b0, 1)
    else if b0 < 194 then none
    else if b0 < 224 then
      match rest with
      | b1 :: _ =>
        if 128 ≤ b1 ∧ b1 < 192 then some ((b0 - 192) * 64 + (b1 - 128), 2) else none
      | [] => none
    else if b0 < 240 then
      match rest with
      | b1 :: b2 :: _ =>
        if (if b0 = 224 then 160 else 128) ≤ b1 ∧ b1 ≤ (if b0 = 237 then 159 else 191)
            ∧ 128 ≤ b2 ∧ b2 < 192 then
          some ((b0 - 224) * 4096 + (b1 - 128) * 64 + (b2 - 128), 3)
        else none
      | _ => none
    else if b0 < 245 then
      match rest with
      | b1 :: b2 :: b3 :: _ =>
        if (if b0 = 240 then 144 else 128) ≤ b1 ∧ b1 ≤ (if b0 = 244 then 143 else 191)
            ∧ 128 ≤ b2 ∧ b2 < 192 ∧ 128 ≤ b3 ∧ b3 < 192 then
          some ((b0 - 240) * 262144 + (b1 - 128) * 4096 + (b2 - 128) * 64 + (b3 - 128), 4)
        else none
      | _ => none
    else none

/-- Fuelled worker for `utf8Valid`; the fuel only needs to be at least the number of
bytes since every decoded code point consumes at least one byte. -/
def utf8ValidFuel : Nat → GoStr → Bool
  | 0, l => l.isEmpty
  | _ + 1, [] => true
  | fuel + 1, l =>
    match decodeUtf8 l with
    | some (_, n) => utf8ValidFuel fuel (List.drop n l)
    | none => false

/-- Embedding of Go `utf8.ValidString`: the byte sequence is a well-formed UTF-8
encoding. -/
def utf8Valid (s : GoStr) : Bool := utf8ValidFuel s.length s

/-- Fuelled walk over the decoded code points of a byte sequence (Go `range` over a
string: a malformed position yields U+FFFD and advances one byte), checking that no code
point equals U+0000 or U+10FFFF. -/
def runesOkFuel : Nat → GoStr → Bool
  | 0, _ => true
  | _ + 1, [] => true
  | fuel + 1, l =>
    match decodeUtf8 l with
    | some (r, n) =>
      if r = 0 ∨ r = 1114111 then false else runesOkFuel fuel (List.drop n l)
    | none => runesOkFuel fuel (List.drop 1 l)

/-- The spec's validity predicate on attribute text, stated in the spec's own words:
the string is valid UTF-8 and contains neither U+0000 nor U+10FFFF. -/
def validFree (s : GoStr) : Bool := utf8Valid s && runesOkFuel s.length s

/-- Errors produced by the key codec. Constructors carry the same data the Go error
messages interpolate. -/
inductive KeyError where
  | invalidUTF8 (s : GoStr)
  | forbiddenRune (r : Nat) (pos : Nat)
  | notEnoughComponents (key : GoStr) (found : Nat)
  | failedToSplit (key : GoStr) (e : KeyError)
  | wrongKeyPrefixErr (key : GoStr)
  | wrongMarkerErr (key : GoStr)
  deriving DecidableEq

/-- The code-point loop of Go `ValidateCompositeKeyAttribute`: `for index, runeValue :=
range str`, failing on the first code point equal to U+0000 or U+10FFFF, with the byte
position of that code point. -/
def validateRunes : Nat → Nat → GoStr → Except KeyError Unit
  | 0, _, _ => Except.ok ()
  | _ + 1, _, [] => Except.ok ()
  | fuel + 1, pos, l =>
    match decodeUtf8 l with
    | some (r, n) =>
      if r = 0 ∨ r = 1114111 then Except.error (KeyError.forbiddenRune r pos)
      else validateRunes fuel (pos + n) (List.drop n l)
    | none => validateRunes fuel (pos + 1) (List.drop 1 l)

/-- Embedding of Go `ValidateCompositeKeyAttribute`: reject non-UTF-8 strings, then
reject the first occurrence of U+0000 or U+10FFFF. -/
def validateCompositeKeyAttribute (str : GoStr) : Except KeyError Unit :=
  if utf8Valid str then validateRunes str.length 0 str
  else Except.error (KeyError.invalidUTF8 str)

/-- Go constant `numComponentsInKey = 2` from keys.go. -/
def numComponentsInKey : Nat := 2

/-- Go constant `compositeKeyNamespace = "\x00"`. -/
def compositeKeyNamespace : GoStr := [0]

/-- The byte scan of Go `SplitCompositeKey` restricted to the bytes after index 0:
collect the maximal segments that are terminated by a 0 byte, in order, discarding any
trailing bytes after the last 0 byte. -/
def splitComponents : GoStr → List GoStr
  | [] => []
  | b :: rest =>
    if b = 0 then [] :: splitComponents rest
    else
      match splitComponents rest with
      | [] => []
      | c :: cs => (b :: c) :: cs

/-- Embedding of Go `SplitCompositeKey`: scan bytes from offset 1, split on the 0x00
delimiter byte, require at least `numComponentsInKey + 1` components (the object type
plus the attributes), and return the object type and the attribute list. -/
def splitCompositeKey (compositeKey : GoStr) : Except KeyError (GoStr × List GoStr) :=
  if (splitComponents (List.drop 1 compositeKey)).length < numComponentsInKey + 1 then
    Except.error (KeyError.notEnoughComponents compositeKey
      (splitComponents (List.drop 1 compositeKey)).length)
  else
    match splitComponents (List.drop 1 compositeKey) with
    | c0 :: rest => Except.ok (c0, rest)
    | [] => Except.error (KeyError.notEnoughComponents compositeKey 0)

/-- The attribute loop of Go `CreateCompositeKey`: validate each attribute in order,
failing fast, and append `attribute ++ 0x00` to the accumulated key. -/
def appendAttributes (ck : GoStr) : List GoStr → Except KeyError GoStr
  | [] => Except.ok ck
  | att :: rest =>
    match validateCompositeKeyAttribute att with
    | Except.error e => Except.error e
    | Except.ok _ => appendAttributes (ck ++ att ++ [0]) rest

/-- Embedding of Go `CreateCompositeKey`: validate the object type, then start from
`namespace ++ objectType ++ 0x00` and append each validated attribute followed by the
delimiter byte. -/
def createCompositeKey (objectType : GoStr) (attributes : List GoStr) :
    Except KeyError GoStr :=
  match validateCompositeKeyAttribute objectType with
  | Except.error e => Except.error e
  | Except.ok _ => appendAttributes (compositeKeyNamespace ++ objectType ++ [0]) attributes

/-- Bytes of the Go constant `TokenKeyPrefix = "ztoken"`. -/
def tokenKeyPrefixBytes : GoStr := [122, 116, 111, 107, 101, 110]

/-- Bytes of the Go constant `TokenSetupKeyPrefix = "setup"`. -/
def tokenSetupKeyBytes : GoStr := [115, 101, 116, 117, 112]

/-- Bytes of the Go constant `TransferActionMetadata = "tam"`. -/
def transferActionMetadataBytes : GoStr := [116, 97, 109]

/-- Fuelled decimal digit rendering, most significant digit first. -/
def decimalDigitsAux : Nat → Nat → GoStr
  | 0, _ => []
  | fuel + 1, n => if n = 0 then [] else decimalDigitsAux fuel (n / 10) ++ [48 + n % 10]

/-- Embedding of Go `strconv.FormatUint(n, 10)`: the ASCII bytes of the decimal
rendering of `n`, with no leading zeros and `"0"` for zero. -/
def formatUint (n : Nat) : GoStr :=
  if n = 0 then [48] else decimalDigitsAux (n + 1) n

/-- Embedding of Go `CreateTokenKey`. -/
def createTokenKey (txID : GoStr) (index : Nat) : Except KeyError GoStr :=
  createCompositeKey tokenKeyPrefixBytes [txID, formatUint index]

/-- Embedding of Go `CreateSetupKey`. -/
def createSetupKey : Except KeyError GoStr :=
  createCompositeKey tokenKeyPrefixBytes [tokenSetupKeyBytes]

/-- Embedding of Go `CreateTransferActionMetadataKey`. -/
def createTransferActionMetadataKey (subKey : GoStr) : Except KeyError GoStr :=
  createCompositeKey tokenKeyPrefixBytes [transferActionMetadataBytes, subKey]

/-- Embedding of Go `GetTransferMetadataSubKey`. Note the arity branch: the Go code
returns `"", errors.Wrapf(err, ...)` where `err` is necessarily `nil` at that point, and
`errors.Wrapf` of a nil error is nil, so a component count other than 2 yields the empty
string with a nil error, embedded here as `Except.ok []`. -/
def getTransferMetadataSubKey (k : GoStr) : Except KeyError GoStr :=
  match splitCompositeKey k with
  | Except.error e => Except.error (KeyError.failedToSplit k e)
  | Except.ok (pr, components) =>
    match components with
    | [c0, c1] =>
      if pr ≠ tokenKeyPrefixBytes then Except.error (KeyError.wrongKeyPrefixErr k)
      else if c0 ≠ transferActionMetadataBytes then Except.error (KeyError.wrongMarkerErr k)
      else Except.ok c1
    | _ => Except.ok []

/-- Concatenation of the attribute segments of a composite key: each attribute followed
by the 0x00 delimiter byte, in order. -/
def joinAttrs : List GoStr → GoStr
  | [] => []
  | a :: rest => a ++ 0 :: joinAttrs rest

instance {ε α : Type} [DecidableEq ε] [DecidableEq α] : DecidableEq (Except ε α) :=
  fun a b =>
  match a, b with
  | Except.ok x, Except.ok y =>
    if h : x = y then isTrue (by rw [h]) else isFalse (by intro hc; cases hc; exact h rfl)
  | Except.error x, Except.error y =>
    if h : x = y then isTrue (by rw [h]) else isFalse (by intro hc; cases hc; exact h rfl)
  | Except.ok _, Except.error _ => isFalse (by intro hc; cases hc)
  | Except.error _, Except.ok _ => isFalse (by intro hc; cases hc)

/-- Errors of the quantity parser used by the balance aggregation. -/
inductive QtyError where
  | invalidQuantity (text : List Char)
  deriving DecidableEq

/-- Modelled from the spec: the fixed-precision quantity type of §4.3 (the Go
`token/token` quantity implementation is not part of the provided sources). A quantity
is a precision `P` together with a non-negative exact magnitude scaled by `10 ^ (-P)`. -/
structure Quantity where
  precision : Nat
  magnitude : Nat
  deriving DecidableEq

/-- Modelled from the spec: `token2.NewZeroQuantity(precision)`, the additive identity
at the given precision. -/
def newZeroQuantity (precision : Nat) : Quantity := ⟨precision, 0⟩

/-- Whether a character is an ASCII decimal digit. -/
def isDigitChar (c : Char) : Bool := decide (48 ≤ c.toNat ∧ c.toNat ≤ 57)

/-- Numeric value of a string of ASCII decimal digits. -/
def digitsVal (l : List Char) : Nat := l.foldl (fun acc c => acc * 10 + (c.toNat - 48)) 0

/-- Modelled from the spec: `token2.ToQuantity(text, precision)` (not part of the
provided sources) parses non-negative decimal text into an exact magnitude scaled to
`precision`, failing on malformed text or on a fractional part with more digits than
`precision` allows. -/
def toQuantity (text : List Char) (precision : Nat) : Except QtyError Quantity :=
  let intPart := text.takeWhile (fun c => c != '.')
  match text.dropWhile (fun c => c != '.') with
  | [] =>
    if intPart ≠ [] ∧ intPart.all isDigitChar then
      Except.ok ⟨precision, digitsVal intPart * 10 ^ precision⟩
    else Except.error (QtyError.invalidQuantity text)
  | _ :: fracPart =>
    if intPart ≠ [] ∧ fracPart ≠ [] ∧ intPart.all isDigitChar ∧ fracPart.all isDigitChar
        ∧ fracPart.length ≤ precision then
      Except.ok ⟨precision, digitsVal intPart * 10 ^ precision
        + digitsVal fracPart * 10 ^ (precision - fracPart.length)⟩
    else Except.error (QtyError.invalidQuantity text)

/-- Modelled from the spec: `Quantity.Add` combines two quantities of equal precision
into their exact sum. In the balance loop both operands always carry the loop's single
precision, which is the only case the loop exercises. -/
def Quantity.add (a b : Quantity) : Quantity := ⟨a.precision, a.magnitude + b.magnitude⟩

/-- ASCII decimal characters of a natural number. -/
def natChars (n : Nat) : List Char := (formatUint n).map Char.ofNat

/-- Left-pad a character list with ASCII zeros up to the given width. -/
def padZeroLeft (l : List Char) (width : Nat) : List Char :=
  List.replicate (width - l.length) (Char.ofNat 48) ++ l

/-- Modelled from the spec: `Quantity.Decimal` renders a quantity with exactly
`precision` fractional digits. -/
def Quantity.decimal (q : Quantity) : List Char :=
  if q.precision = 0 then natChars q.magnitude
  else natChars (q.magnitude / 10 ^ q.precision)
    ++ '.' :: padZeroLeft (natChars (q.magnitude % 10 ^ q.precision)) q.precision

/-- An enumerated unspent-token record, exposing its decimal-text quantity, as consumed
by the loop in `BalanceView.Call`. -/
structure UnspentToken where
  quantity : List Char
  deriving DecidableEq

/-- The result struct `Balance{Type, Quantity}` of balance.go. -/
structure Balance where
  typeLabel : List Char
  quantityText : List Char
  deriving DecidableEq

/-- The summation loop of `BalanceView.Call` (balance.go lines 52-59): starting from the
zero quantity, parse each enumerated token's quantity text at the query's precision,
propagating the first parse error, and add it into the running total. -/
def sumQuantities (precision : Nat) : Quantity → List UnspentToken → Except QtyError Quantity
  | sum, [] => Except.ok sum
  | sum, tok :: rest =>
    match toQuantity tok.quantity precision with
    | Except.error e => Except.error e
    | Except.ok q => sumQuantities precision (Quantity.add sum q) rest

/-- Embedding of the aggregation part of `BalanceView.Call` (balance.go lines 51-63):
sum the enumerated unspent tokens at the given precision and return
`Balance{Type, sum.Decimal()}`; a parse error aborts the call with that error. -/
def balanceViewCall (typeLabel : List Char) (precision : Nat)
    (unspentTokens : List UnspentToken) : Except QtyError Balance :=
  match sumQuantities precision (newZeroQuantity precision) unspentTokens with
  | Except.error e => Except.error e
  | Except.ok sum => Except.ok ⟨typeLabel, Quantity.decimal sum⟩

/-- Count of fractional digits of rendered decimal text: the number of characters
strictly after the first dot, zero when there is no dot. -/
def fracDigitCount (s : List Char) : Nat :=
  (s.dropWhile (fun c => c != '.')).length - 1

/-- Whether an `Except` value is a success. -/
def exceptIsOk {ε α : Type} : Except ε α → Bool
  | Except.ok _ => true
  | Except.error _ => false


theorem decodeUtf8_size (l : GoStr) (r n : Nat) (h : decodeUtf8 l = some (r, n)) :
    1 ≤ n ∧ n ≤ l.length := by
  match l with
  | [] => simp [decodeUtf8] at h
  | b0 :: rest =>
    simp only [decodeUtf8] at h
    repeat' split at h
    all_goals simp_all
    all_goals omega

theorem decodeUtf8_zero (t : GoStr) : decodeUtf8 (0 :: t) = some (0, 1) := by
  simp [decodeUtf8]

theorem decodeUtf8_take_pos (l : GoStr) (r n : Nat) (h : decodeUtf8 l = some (r, n))
    (hr : r ≠ 0) : ∀ b ∈ List.take n l, b ≠ 0 := by
  match l with
  | [] => simp [decodeUtf8] at h
  | b0 :: rest =>
    simp only [decodeUtf8] at h
    repeat' split at h
    all_goals first
      | exact Option.noConfusion h
      | (simp only [Option.some.injEq, Prod.mk.injEq] at h
         obtain ⟨hre, hne⟩ := h
         subst hne
         subst hre
         intro b hb
         simp only [List.take_succ_cons, List.take_zero, List.take_nil, List.mem_cons,
           List.not_mem_nil, or_false] at hb
         omega)

theorem runesOkFuel_no_zero (fuel : Nat) (l : GoStr) (hlen : l.length ≤ fuel)
    (h : runesOkFuel fuel l = true) : 0 ∉ l := by
  induction fuel generalizing l with
  | zero =>
    have hl : l = [] := by cases l <;> simp_all
    simp [hl]
  | succ fuel ih =>
    match l with
    | [] => simp
    | b :: t =>
      intro hmem
      simp only [runesOkFuel] at h
      cases hd : decodeUtf8 (b :: t) with
      | none =>
        rw [hd] at h
        have hb : b ≠ 0 := by
          intro hb0
          rw [hb0, decodeUtf8_zero] at hd
          exact Option.noConfusion hd
        rcases List.mem_cons.mp hmem with h0 | h0
        · exact hb h0.symm
        · exact ih t (by simp at hlen; omega) (by simpa using h) h0
      | some rn =>
        obtain ⟨r, n⟩ := rn
        rw [hd] at h
        by_cases hr : r = 0 ∨ r = 1114111
        · simp [hr] at h
        · simp only [hr, if_false] at h
          have hrne : r ≠ 0 := by tauto
          obtain ⟨hn1, hn2⟩ := decodeUtf8_size _ _ _ hd
          have hsplit : (0 : Nat) ∈ List.take n (b :: t) ∨ (0 : Nat) ∈ List.drop n (b :: t) := by
            rw [← List.mem_append, List.take_append_drop]
            exact hmem
          rcases hsplit with h0 | h0
          · exact decodeUtf8_take_pos _ _ _ hd hrne 0 h0 rfl
          · exact ih (List.drop n (b :: t))
              (by simp only [List.length_drop]; omega)
              h h0

theorem validFree_no_zero (s : GoStr) (h : validFree s = true) : 0 ∉ s := by
  have h2 : runesOkFuel s.length s = true := by
    simp only [validFree, Bool.and_eq_true] at h
    exact h.2
  exact runesOkFuel_no_zero s.length s le_rfl h2

theorem validateRunes_ok_iff (fuel pos : Nat) (l : GoStr) :
    validateRunes fuel pos l = Except.ok () ↔ runesOkFuel fuel l = true := by
  induction fuel generalizing pos l with
  | zero => simp [validateRunes, runesOkFuel]
  | succ fuel ih =>
    match l with
    | [] => simp [validateRunes, runesOkFuel]
    | b :: t =>
      simp only [validateRunes, runesOkFuel]
      cases hd : decodeUtf8 (b :: t) with
      | none => simpa using ih (pos + 1) (List.drop 1 (b :: t))
      | some rn =>
        obtain ⟨r, n⟩ := rn
        by_cases hr : r = 0 ∨ r = 1114111
        · simp [hr]
        · simp only [hr, if_false]
          exact ih (pos + n) (List.drop n (b :: t))

theorem validate_ok_iff (s : GoStr) :
    validateCompositeKeyAttribute s = Except.ok () ↔ validFree s = true := by
  unfold validateCompositeKeyAttribute validFree
  cases h : utf8Valid s with
  | false => simp
  | true => simp [validateRunes_ok_iff]


theorem decodeUtf8_ascii (b : Nat) (t : GoStr) (hb : b < 128) :
    decodeUtf8 (b :: t) = some (b, 1) := by
  simp [decodeUtf8, hb]

theorem utf8ValidFuel_ascii (fuel : Nat) (l : GoStr) (hlen : l.length ≤ fuel)
    (h : ∀ b ∈ l, b < 128) : utf8ValidFuel fuel l = true := by
  induction fuel generalizing l with
  | zero =>
    have hl : l = [] := by cases l <;> simp_all
    simp [hl, utf8ValidFuel]
  | succ fuel ih =>
    match l with
    | [] => simp [utf8ValidFuel]
    | b :: t =>
      have hb : b < 128 := h b (by simp)
      simp only [utf8ValidFuel, decodeUtf8_ascii b t hb]
      exact ih (List.drop 1 (b :: t)) (by simp at hlen ⊢; omega)
        (fun x hx => h x (by simp at hx; simp [hx]))

theorem runesOkFuel_ascii (fuel : Nat) (l : GoStr)
    (h : ∀ b ∈ l, 0 < b ∧ b < 128) : runesOkFuel fuel l = true := by
  induction fuel generalizing l with
  | zero => simp [runesOkFuel]
  | succ fuel ih =>
    match l with
    | [] => simp [runesOkFuel]
    | b :: t =>
      obtain ⟨hb0, hb1⟩ := h b (by simp)
      simp only [runesOkFuel, decodeUtf8_ascii b t hb1]
      have hcond : ¬ (b = 0 ∨ b = 1114111) := by omega
      simp only [hcond, if_false]
      exact ih (List.drop 1 (b :: t)) (fun x hx => h x (by simp at hx; simp [hx]))

theorem validFree_ascii (l : GoStr) (h : ∀ b ∈ l, 0 < b ∧ b < 128) :
    validFree l = true := by
  simp only [validFree, Bool.and_eq_true]
  exact ⟨utf8ValidFuel_ascii l.length l le_rfl (fun b hb => (h b hb).2),
    runesOkFuel_ascii l.length l h⟩

theorem decimalDigitsAux_digits (fuel n : Nat) :
    ∀ b ∈ decimalDigitsAux fuel n, 48 ≤ b ∧ b ≤ 57 := by
  induction fuel generalizing n with
  | zero => simp [decimalDigitsAux]
  | succ fuel ih =>
    intro b hb
    simp only [decimalDigitsAux] at hb
    by_cases hn : n = 0
    · simp [hn] at hb
    · simp only [hn, if_false, List.mem_append, List.mem_singleton] at hb
      rcases hb with hb | hb
      · exact ih (n / 10) b hb
      · have : n % 10 < 10 := Nat.mod_lt n (by omega)
        omega

theorem formatUint_digits (n : Nat) : ∀ b ∈ formatUint n, 48 ≤ b ∧ b ≤ 57 := by
  unfold formatUint
  by_cases hn : n = 0
  · simp [hn]
  · simp only [hn, if_false]
    exact decimalDigitsAux_digits (n + 1) n

theorem validFree_formatUint (n : Nat) : validFree (formatUint n) = true := by
  refine validFree_ascii _ (fun b hb => ?h)
  have := formatUint_digits n b hb
  omega

theorem validFree_validate (s : GoStr) (h : validFree s = true) :
    validateCompositeKeyAttribute s = Except.ok () := (validate_ok_iff s).mpr h

theorem appendAttributes_ok (attrs : List GoStr) (ck : GoStr)
    (h : ∀ a ∈ attrs, validateCompositeKeyAttribute a = Except.ok ()) :
    appendAttributes ck attrs = Except.ok (ck ++ joinAttrs attrs) := by
  induction attrs generalizing ck with
  | nil => simp [appendAttributes, joinAttrs]
  | cons a rest ih =>
    have ha : validateCompositeKeyAttribute a = Except.ok () := h a (by simp)
    simp only [appendAttributes, ha]
    rw [ih (ck ++ a ++ [0]) (fun x hx => h x (by simp [hx]))]
    simp [joinAttrs, List.append_assoc]

theorem createCompositeKey_ok (objectType : GoStr) (attrs : List GoStr)
    (hot : validFree objectType = true) (hattrs : ∀ a ∈ attrs, validFree a = true) :
    createCompositeKey objectType attrs
      = Except.ok (compositeKeyNamespace ++ objectType ++ [0] ++ joinAttrs attrs) := by
  simp only [createCompositeKey, validFree_validate objectType hot]
  rw [appendAttributes_ok attrs _ (fun a ha => validFree_validate a (hattrs a ha))]

theorem splitComponents_append (s rest : GoStr) (h : 0 ∉ s) :
    splitComponents (s ++ 0 :: rest) = s :: splitComponents rest := by
  induction s with
  | nil => simp [splitComponents]
  | cons b t ih =>
    have hb : ¬ b = 0 := fun hb0 => h (by simp [hb0])
    simp only [List.cons_append, splitComponents, hb, if_false]
    rw [List.append_eq, ih (fun hm => h (by simp [hm]))]

theorem splitComponents_joinAttrs (attrs : List GoStr) (h : ∀ a ∈ attrs, 0 ∉ a) :
    splitComponents (joinAttrs attrs) = attrs := by
  induction attrs with
  | nil => simp [joinAttrs, splitComponents]
  | cons a rest ih =>
    show splitComponents (a ++ 0 :: joinAttrs rest) = a :: rest
    rw [splitComponents_append a (joinAttrs rest) (h a (by simp))]
    rw [ih (fun x hx => h x (by simp [hx]))]

theorem split_create_key (objectType : GoStr) (attrs : List GoStr)
    (hot : validFree objectType = true) (hattrs : ∀ a ∈ attrs, validFree a = true)
    (hlen : 2 ≤ attrs.length) :
    splitCompositeKey (compositeKeyNamespace ++ objectType ++ [0] ++ joinAttrs attrs)
      = Except.ok (objectType, attrs) := by
  have hdrop : List.drop 1 (compositeKeyNamespace ++ objectType ++ [0] ++ joinAttrs attrs)
      = objectType ++ 0 :: joinAttrs attrs := by
    simp [compositeKeyNamespace, List.append_assoc]
  have hcomp : splitComponents (objectType ++ 0 :: joinAttrs attrs)
      = objectType :: attrs := by
    rw [splitComponents_append objectType (joinAttrs attrs) (validFree_no_zero _ hot)]
    rw [splitComponents_joinAttrs attrs (fun a ha => validFree_no_zero a (hattrs a ha))]
  have hml : ¬ ((objectType :: attrs).length < numComponentsInKey + 1) := by
    simp only [List.length_cons, numComponentsInKey]
    omega
  simp only [splitCompositeKey, hdrop, hcomp]
  rw [if_neg hml]


theorem appendAttributes_ok_all (attrs : List GoStr) (ck k : GoStr)
    (h : appendAttributes ck attrs = Except.ok k) :
    ∀ a ∈ attrs, validateCompositeKeyAttribute a = Except.ok () := by
  induction attrs generalizing ck with
  | nil => simp
  | cons a rest ih =>
    intro x hx
    simp only [appendAttributes] at h
    cases hv : validateCompositeKeyAttribute a with
    | error e => rw [hv] at h; exact Except.noConfusion h
    | ok u =>
      rw [hv] at h
      rcases List.mem_cons.mp hx with hxa | hxr
      · rw [hxa, hv]
      · exact ih (ck ++ a ++ [0]) h x hxr

theorem appendAttributes_error_mem (attrs : List GoStr) (ck : GoStr) (e : KeyError)
    (h : appendAttributes ck attrs = Except.error e) :
    ∃ a ∈ attrs, validateCompositeKeyAttribute a = Except.error e := by
  induction attrs generalizing ck with
  | nil => simp [appendAttributes] at h
  | cons a rest ih =>
    simp only [appendAttributes] at h
    cases hv : validateCompositeKeyAttribute a with
    | error e2 =>
      rw [hv] at h
      injection h with h2
      exact ⟨a, by simp, by rw [hv, h2]⟩
    | ok u =>
      rw [hv] at h
      obtain ⟨x, hx, hval⟩ := ih (ck ++ a ++ [0]) h
      exact ⟨x, by simp [hx], hval⟩

theorem appendAttributes_skip_ok (pre rest : List GoStr) (ck : GoStr)
    (h : ∀ a ∈ pre, validateCompositeKeyAttribute a = Except.ok ()) :
    appendAttributes ck (pre ++ rest) = appendAttributes (ck ++ joinAttrs pre) rest := by
  induction pre generalizing ck with
  | nil => simp [joinAttrs]
  | cons a pre2 ih =>
    have ha : validateCompositeKeyAttribute a = Except.ok () := h a (by simp)
    simp only [List.cons_append, appendAttributes, ha]
    rw [List.append_eq, ih (ck ++ a ++ [0]) (fun x hx => h x (by simp [hx]))]
    simp [joinAttrs, List.append_assoc]

theorem createCompositeKey_error_mem (objectType : GoStr) (attrs : List GoStr)
    (e : KeyError) (h : createCompositeKey objectType attrs = Except.error e) :
    validateCompositeKeyAttribute objectType = Except.error e
      ∨ ∃ a ∈ attrs, validateCompositeKeyAttribute a = Except.error e := by
  simp only [createCompositeKey] at h
  cases hv : validateCompositeKeyAttribute objectType with
  | error e2 =>
    rw [hv] at h
    injection h with h2
    exact Or.inl (by rw [h2])
  | ok u =>
    rw [hv] at h
    exact Or.inr (appendAttributes_error_mem attrs _ e h)

theorem validateRunes_error (fuel : Nat) (pos : Nat) (l : GoStr) (e : KeyError)
    (h : validateRunes fuel pos l = Except.error e) :
    ∃ r j n, e = KeyError.forbiddenRune r (pos + j) ∧ (r = 0 ∨ r = 1114111)
      ∧ decodeUtf8 (List.drop j l) = some (r, n) := by
  induction fuel generalizing pos l with
  | zero => simp [validateRunes] at h
  | succ fuel ih =>
    match l with
    | [] => simp [validateRunes] at h
    | b :: t =>
      simp only [validateRunes] at h
      split at h
      · rename_i r n heq
        split at h
        · rename_i hr
          injection h with h2
          exact ⟨r, 0, n, by rw [← h2, Nat.add_zero], hr, by simpa using heq⟩
        · rename_i hr
          obtain ⟨r2, j, n2, he, hr2, hdec⟩ := ih (pos + n) (List.drop n (b :: t)) h
          refine ⟨r2, n + j, n2, ?eqn, hr2, ?dec⟩
          · rw [he]
            congr 1
            omega
          · rw [List.drop_drop] at hdec
            exact hdec
      · rename_i heq
        obtain ⟨r, j, n, he, hr, hdec⟩ := ih (pos + 1) (List.drop 1 (b :: t)) h
        refine ⟨r, 1 + j, n, ?eqn2, hr, ?dec2⟩
        · rw [he]
          congr 1
          omega
        · rw [List.drop_drop] at hdec
          exact hdec

theorem validate_error_shape (s : GoStr) (e : KeyError)
    (h : validateCompositeKeyAttribute s = Except.error e) :
    (e = KeyError.invalidUTF8 s ∧ utf8Valid s = false)
      ∨ ∃ r i n, e = KeyError.forbiddenRune r i ∧ (r = 0 ∨ r = 1114111)
          ∧ decodeUtf8 (List.drop i s) = some (r, n) := by
  unfold validateCompositeKeyAttribute at h
  cases hv : utf8Valid s with
  | false =>
    rw [hv] at h
    simp only [Bool.false_eq_true, if_false] at h
    injection h with h2
    exact Or.inl ⟨h2.symm, rfl⟩
  | true =>
    rw [hv] at h
    simp only [if_true] at h
    obtain ⟨r, j, n, he, hr, hdec⟩ := validateRunes_error s.length 0 s e h
    exact Or.inr ⟨r, j, n, by rw [he]; congr 1; omega, hr, hdec⟩

theorem sumQuantities_error (precision : Nat) (pre post : List UnspentToken)
    (tok : UnspentToken) (e : QtyError) (q : Quantity)
    (hpre : ∀ t ∈ pre, exceptIsOk (toQuantity t.quantity precision) = true)
    (hfail : toQuantity tok.quantity precision = Except.error e) :
    sumQuantities precision q (pre ++ tok :: post) = Except.error e := by
  induction pre generalizing q with
  | nil =>
    simp only [List.nil_append, sumQuantities, hfail]
  | cons t2 pre2 ih =>
    have ht2 : exceptIsOk (toQuantity t2.quantity precision) = true := hpre t2 (by simp)
    cases hq : toQuantity t2.quantity precision with
    | error e2 =>
      rw [hq] at ht2
      simp [exceptIsOk] at ht2
    | ok q2 =>
      simp only [List.cons_append, sumQuantities, hq]
      exact ih (Quantity.add q q2) (fun x hx => hpre x (List.mem_cons_of_mem t2 hx))


theorem decimal_zero (P : Nat) :
    Quantity.decimal (newZeroQuantity P) =
      if P = 0 then [Char.ofNat 48]
      else Char.ofNat 48 :: '.'
        :: (List.replicate (P - 1) (Char.ofNat 48) ++ [Char.ofNat 48]) := by
  unfold Quantity.decimal newZeroQuantity
  by_cases hP : P = 0
  · simp [hP, natChars, formatUint]
  · simp only [hP, if_false]
    simp [natChars, formatUint, padZeroLeft]

theorem fracDigitCount_decimal_zero (P : Nat) :
    fracDigitCount (Quantity.decimal (newZeroQuantity P)) = P := by
  rw [decimal_zero]
  by_cases hP : P = 0
  · simp only [hP, if_true]
    decide
  · simp only [hP, if_false, fracDigitCount]
    rw [List.dropWhile_cons, if_pos (by decide), List.dropWhile_cons, if_neg (by decide)]
    simp
    omega


/-- Claim C1 (amended): for every object type and every attribute list whose strings are
valid UTF-8 and free of U+0000 and U+10FFFF, and which has at least
`numComponentsInKey = 2` attributes, SplitCompositeKey applied to the key returned by
CreateCompositeKey succeeds and returns exactly the object type and the attributes.
Attribute lists of length zero or one build keys that SplitCompositeKey rejects. -/
theorem c1_roundtrip_two_or_more (objectType : GoStr) (attrs : List GoStr)
    (hot : validFree objectType = true) (hattrs : ∀ a ∈ attrs, validFree a = true)
    (hlen : 2 ≤ attrs.length) :
    ∃ k, createCompositeKey objectType attrs = Except.ok k
      ∧ splitCompositeKey k = Except.ok (objectType, attrs) :=
  ⟨compositeKeyNamespace ++ objectType ++ [0] ++ joinAttrs attrs,
    createCompositeKey_ok objectType attrs hot hattrs,
    split_create_key objectType attrs hot hattrs hlen⟩

/-- Witness for the amended claim C1 at object type `"a"` and attributes `["b", "c"]`. -/
theorem c1_roundtrip_two_or_more_witness :
    validFree [97] = true ∧ (∀ a ∈ [[98], [99]], validFree a = true)
      ∧ 2 ≤ ([[98], [99]] : List GoStr).length
      ∧ ∃ k, createCompositeKey [97] [[98], [99]] = Except.ok k
          ∧ splitCompositeKey k = Except.ok ([97], [[98], [99]]) :=
  ⟨by decide, by decide, by decide,
    c1_roundtrip_two_or_more [97] [[98], [99]] (by decide) (by decide) (by decide)⟩

/-- Counterexample to claim C1 as stated: with the valid object type `"a"` and the empty
attribute list, CreateCompositeKey builds the key but SplitCompositeKey rejects it, so
the round-trip fails at attribute-list length zero. -/
theorem c1_counterexample_empty_attrs :
    validFree [97] = true
    ∧ createCompositeKey [97] [] = Except.ok [0, 97, 0]
    ∧ splitCompositeKey [0, 97, 0]
        = Except.error (KeyError.notEnoughComponents [0, 97, 0] 1) :=
  ⟨by decide, by decide, by decide⟩

/-- Claim C2 (amended): SplitCompositeKey fails, reporting the key and the number of
components found, exactly when it finds fewer than `numComponentsInKey + 1 = 3`
delimiter-separated components; the minimum is this one global constant, not a
per-caller value, so valid zero- and one-attribute keys are rejected when split. -/
theorem c2_split_minimum_global (k : GoStr) :
    ((∃ e, splitCompositeKey k = Except.error e)
        ↔ (splitComponents (List.drop 1 k)).length < numComponentsInKey + 1)
    ∧ ∀ e, splitCompositeKey k = Except.error e
        → e = KeyError.notEnoughComponents k (splitComponents (List.drop 1 k)).length := by
  constructor
  · constructor
    · rintro ⟨e, he⟩
      by_contra hlt
      simp only [splitCompositeKey] at he
      rw [if_neg hlt] at he
      cases hc : splitComponents (List.drop 1 k) with
      | nil =>
        rw [hc] at hlt
        simp [numComponentsInKey] at hlt
      | cons c0 rest =>
        rw [hc] at he
        exact Except.noConfusion he
    · intro hlt
      simp only [splitCompositeKey]
      rw [if_pos hlt]
      exact ⟨_, rfl⟩
  · intro e he
    simp only [splitCompositeKey] at he
    by_cases hlt : (splitComponents (List.drop 1 k)).length < numComponentsInKey + 1
    · rw [if_pos hlt] at he
      injection he with h2
      exact h2.symm
    · rw [if_neg hlt] at he
      cases hc : splitComponents (List.drop 1 k) with
      | nil =>
        rw [hc] at hlt
        simp [numComponentsInKey] at hlt
      | cons c0 rest =>
        rw [hc] at he
        exact Except.noConfusion he

/-- Counterexample to claim C2 as stated: the valid one-attribute key built by
CreateSetupKey is rejected by SplitCompositeKey, because the required minimum is the
global constant 3, not a per-caller value. -/
theorem c2_counterexample_setup_key :
    createSetupKey
      = Except.ok [0, 122, 116, 111, 107, 101, 110, 0, 115, 101, 116, 117, 112, 0]
    ∧ splitCompositeKey [0, 122, 116, 111, 107, 101, 110, 0, 115, 101, 116, 117, 112, 0]
        = Except.error (KeyError.notEnoughComponents
            [0, 122, 116, 111, 107, 101, 110, 0, 115, 101, 116, 117, 112, 0] 2) :=
  ⟨by decide, by decide⟩

/-- Claim C3, code evaluated at the failing input: a well-formed key with three
attributes (object type `"ztoken"`, attributes `["tam", "a", "b"]`) makes
GetTransferMetadataSubKey return the empty string with a nil error instead of a
wrong-arity error, because `errors.Wrapf` of a nil error yields nil. -/
theorem c3_wrong_arity_nil_error :
    createCompositeKey tokenKeyPrefixBytes [transferActionMetadataBytes, [97], [98]]
      = Except.ok [0, 122, 116, 111, 107, 101, 110, 0, 116, 97, 109, 0, 97, 0, 98, 0]
    ∧ getTransferMetadataSubKey
        [0, 122, 116, 111, 107, 101, 110, 0, 116, 97, 109, 0, 97, 0, 98, 0]
      = Except.ok [] :=
  ⟨by decide, by decide⟩

/-- Claim C4: if parsing the quantity text of any enumerated unspent token fails at the
given precision, the balance aggregation returns the error of the first failing parse
and no Balance value. -/
theorem c4_parse_error_aborts (typeLabel : List Char) (precision : Nat)
    (pre post : List UnspentToken) (tok : UnspentToken) (e : QtyError)
    (hpre : ∀ t ∈ pre, exceptIsOk (toQuantity t.quantity precision) = true)
    (hfail : toQuantity tok.quantity precision = Except.error e) :
    balanceViewCall typeLabel precision (pre ++ tok :: post) = Except.error e := by
  unfold balanceViewCall
  rw [sumQuantities_error precision pre post tok e (newZeroQuantity precision) hpre hfail]

/-- Witness for claim C4: tokens `["5.00", "x"]` at precision 2 abort with the parse
error for `"x"`. -/
theorem c4_parse_error_aborts_witness :
    (∀ t ∈ [UnspentToken.mk "5.00".data], exceptIsOk (toQuantity t.quantity 2) = true)
    ∧ toQuantity (UnspentToken.mk "x".data).quantity 2
        = Except.error (QtyError.invalidQuantity "x".data)
    ∧ balanceViewCall "USD".data 2
        ([UnspentToken.mk "5.00".data] ++ UnspentToken.mk "x".data :: [])
      = Except.error (QtyError.invalidQuantity "x".data) :=
  ⟨by decide, by decide,
    c4_parse_error_aborts "USD".data 2 [UnspentToken.mk "5.00".data] []
      (UnspentToken.mk "x".data) (QtyError.invalidQuantity "x".data)
      (by decide) (by decide)⟩

/-- Claim C5: for every subKey that is valid UTF-8 and free of U+0000 and U+10FFFF,
GetTransferMetadataSubKey applied to the key returned by
CreateTransferActionMetadataKey(subKey) succeeds and returns exactly subKey. -/
theorem c5_transfer_metadata_roundtrip (subKey : GoStr) (h : validFree subKey = true) :
    ∃ k, createTransferActionMetadataKey subKey = Except.ok k
      ∧ getTransferMetadataSubKey k = Except.ok subKey := by
  have hzt : validFree tokenKeyPrefixBytes = true := by decide
  have hattrs : ∀ a ∈ [transferActionMetadataBytes, subKey], validFree a = true := by
    intro a ha
    rcases List.mem_cons.mp ha with h1 | h1
    · rw [h1]
      decide
    · simp only [List.mem_singleton] at h1
      rw [h1]
      exact h
  refine ⟨compositeKeyNamespace ++ tokenKeyPrefixBytes ++ [0]
    ++ joinAttrs [transferActionMetadataBytes, subKey],
    createCompositeKey_ok _ _ hzt hattrs, ?g⟩
  unfold getTransferMetadataSubKey
  rw [split_create_key _ _ hzt hattrs (by simp)]
  simp

/-- Witness for claim C5 at subKey `"abc"`, the spec's concrete example. -/
theorem c5_transfer_metadata_roundtrip_witness :
    validFree [97, 98, 99] = true
    ∧ ∃ k, createTransferActionMetadataKey [97, 98, 99] = Except.ok k
        ∧ getTransferMetadataSubKey k = Except.ok [97, 98, 99] :=
  ⟨by decide, c5_transfer_metadata_roundtrip [97, 98, 99] (by decide)⟩

/-- Claim C6: CreateCompositeKey fails exactly when the object type or some attribute is
not valid UTF-8 or contains U+0000 or U+10FFFF; it fails fast with the error of the
first violating string (so no key is returned), and a forbidden-codepoint error names
the offending codepoint, which decodes in the offending string at the reported byte
position. -/
theorem c6_create_validation (objectType : GoStr) (attrs : List GoStr) :
    ((∃ k, createCompositeKey objectType attrs = Except.ok k)
        ↔ (validFree objectType = true ∧ ∀ a ∈ attrs, validFree a = true))
    ∧ (∀ pre a post e, attrs = pre ++ a :: post
        → validFree objectType = true
        → (∀ x ∈ pre, validFree x = true)
        → validateCompositeKeyAttribute a = Except.error e
        → createCompositeKey objectType attrs = Except.error e)
    ∧ (∀ r i, createCompositeKey objectType attrs
          = Except.error (KeyError.forbiddenRune r i)
        → (r = 0 ∨ r = 1114111)
          ∧ ∃ s n, (s = objectType ∨ s ∈ attrs)
              ∧ decodeUtf8 (List.drop i s) = some (r, n)) := by
  refine ⟨⟨?fwd, ?bwd⟩, ?ff, ?shape⟩
  case fwd =>
    rintro ⟨k, hk⟩
    simp only [createCompositeKey] at hk
    cases hv : validateCompositeKeyAttribute objectType with
    | error e =>
      rw [hv] at hk
      exact Except.noConfusion hk
    | ok u =>
      rw [hv] at hk
      refine ⟨(validate_ok_iff objectType).mp (by rw [hv]), ?attrsOk⟩
      intro a ha
      exact (validate_ok_iff a).mp (appendAttributes_ok_all attrs _ k hk a ha)
  case bwd =>
    rintro ⟨hot, hattrs⟩
    exact ⟨_, createCompositeKey_ok _ _ hot hattrs⟩
  case ff =>
    intro pre a post e hsplit hot hpre hval
    subst hsplit
    simp only [createCompositeKey, validFree_validate objectType hot]
    rw [appendAttributes_skip_ok pre (a :: post) _
      (fun x hx => validFree_validate x (hpre x hx))]
    simp only [appendAttributes, hval]
  case shape =>
    intro r i h
    rcases createCompositeKey_error_mem objectType attrs _ h with hv | ⟨a, ha, hv⟩
    · rcases validate_error_shape objectType _ hv with ⟨he, _⟩ | ⟨r2, i2, n, he, hr, hdec⟩
      · exact KeyError.noConfusion he
      · injection he with h1 h2
        subst h1
        subst h2
        exact ⟨hr, objectType, n, Or.inl rfl, hdec⟩
    · rcases validate_error_shape a _ hv with ⟨he, _⟩ | ⟨r2, i2, n, he, hr, hdec⟩
      · exact KeyError.noConfusion he
      · injection he with h1 h2
        subst h1
        subst h2
        exact ⟨hr, a, n, Or.inr ha, hdec⟩

/-- Claim C7: for valid inputs the built key is exactly the namespace byte 0x00, the
object type, the delimiter byte 0x00, then each attribute followed by the delimiter
byte in order; consequently any two keys built with the same object type share the
prefix `namespace ++ objectType ++ delimiter`. -/
theorem c7_key_layout (objectType : GoStr) (attrs : List GoStr)
    (hot : validFree objectType = true) (hattrs : ∀ a ∈ attrs, validFree a = true) :
    createCompositeKey objectType attrs
      = Except.ok (compositeKeyNamespace ++ objectType ++ [0] ++ joinAttrs attrs)
    ∧ ∀ attrs2, (∀ a ∈ attrs2, validFree a = true)
        → ∃ r1 r2, createCompositeKey objectType attrs
              = Except.ok (compositeKeyNamespace ++ objectType ++ [0] ++ r1)
          ∧ createCompositeKey objectType attrs2
              = Except.ok (compositeKeyNamespace ++ objectType ++ [0] ++ r2) := by
  refine ⟨createCompositeKey_ok _ _ hot hattrs, ?shared⟩
  intro attrs2 h2
  exact ⟨joinAttrs attrs, joinAttrs attrs2, createCompositeKey_ok _ _ hot hattrs,
    createCompositeKey_ok _ _ hot h2⟩

/-- Witness for claim C7 at object type `"a"` and attributes `["b"]`. -/
theorem c7_key_layout_witness :
    validFree [97] = true ∧ (∀ a ∈ [[98]], validFree a = true)
    ∧ (createCompositeKey [97] [[98]]
          = Except.ok (compositeKeyNamespace ++ [97] ++ [0] ++ joinAttrs [[98]])
        ∧ ∀ attrs2, (∀ a ∈ attrs2, validFree a = true)
            → ∃ r1 r2, createCompositeKey [97] [[98]]
                  = Except.ok (compositeKeyNamespace ++ [97] ++ [0] ++ r1)
              ∧ createCompositeKey [97] attrs2
                  = Except.ok (compositeKeyNamespace ++ [97] ++ [0] ++ r2)) :=
  ⟨by decide, by decide, c7_key_layout [97] [[98]] (by decide) (by decide)⟩

/-- Claim C8: on an empty unspent-token list the balance aggregation at any precision
succeeds and returns the zero quantity rendered with exactly that many fractional
digits; at precision 2 and type `"USD"` the result is `Balance{"USD", "0.00"}`. -/
theorem c8_empty_balance (typeLabel : List Char) (precision : Nat) :
    balanceViewCall typeLabel precision []
      = Except.ok ⟨typeLabel, Quantity.decimal (newZeroQuantity precision)⟩
    ∧ fracDigitCount (Quantity.decimal (newZeroQuantity precision)) = precision
    ∧ balanceViewCall "USD".data 2 [] = Except.ok ⟨"USD".data, "0.00".data⟩ :=
  ⟨rfl, fracDigitCount_decimal_zero precision, by decide⟩

/-- Claim C9: CreateTokenKey builds a key of object type `"ztoken"` with exactly the two
attributes txID and the decimal rendering of the index; concretely,
CreateTokenKey("tx1", 3) produces a key that SplitCompositeKey splits into `"ztoken"`
and `["tx1", "3"]`. -/
theorem c9_token_key_shape (txID : GoStr) (index : Nat) (h : validFree txID = true) :
    (∃ k, createTokenKey txID index = Except.ok k
        ∧ splitCompositeKey k = Except.ok (tokenKeyPrefixBytes, [txID, formatUint index]))
    ∧ createTokenKey [116, 120, 49] 3
        = Except.ok [0, 122, 116, 111, 107, 101, 110, 0, 116, 120, 49, 0, 51, 0]
    ∧ splitCompositeKey [0, 122, 116, 111, 107, 101, 110, 0, 116, 120, 49, 0, 51, 0]
        = Except.ok ([122, 116, 111, 107, 101, 110], [[116, 120, 49], [51]]) := by
  refine ⟨?gen, by decide, by decide⟩
  have hzt : validFree tokenKeyPrefixBytes = true := by decide
  have hattrs : ∀ a ∈ [txID, formatUint index], validFree a = true := by
    intro a ha
    rcases List.mem_cons.mp ha with hh | hh
    · rw [hh]
      exact h
    · simp only [List.mem_singleton] at hh
      rw [hh]
      exact validFree_formatUint index
  exact ⟨_, createCompositeKey_ok _ _ hzt hattrs,
    split_create_key _ _ hzt hattrs (by simp)⟩

/-- Witness for claim C9 at txID `"tx1"` and index 3. -/
theorem c9_token_key_shape_witness :
    validFree [116, 120, 49] = true
    ∧ ((∃ k, createTokenKey [116, 120, 49] 3 = Except.ok k
          ∧ splitCompositeKey k
              = Except.ok (tokenKeyPrefixBytes, [[116, 120, 49], formatUint 3]))
        ∧ createTokenKey [116, 120, 49] 3
            = Except.ok [0, 122, 116, 111, 107, 101, 110, 0, 116, 120, 49, 0, 51, 0]
        ∧ splitCompositeKey [0, 122, 116, 111, 107, 101, 110, 0, 116, 120, 49, 0, 51, 0]
            = Except.ok ([122, 116, 111, 107, 101, 110], [[116, 120, 49], [51]])) :=
  ⟨by decide, c9_token_key_shape [116, 120, 49] 3 (by decide)⟩

/-- Claim C10: for every txID that is valid UTF-8 and free of U+0000 and U+10FFFF and
every uint64 index, CreateTokenKey succeeds, because the base-10 rendering of the index
consists only of ASCII digit bytes and therefore always passes attribute validation. -/
theorem c10_create_token_key_total (txID : GoStr) (index : Nat)
    (h1 : validFree txID = true) (_h2 : index < 2 ^ 64) :
    (∀ b ∈ formatUint index, 48 ≤ b ∧ b ≤ 57)
    ∧ ∃ k, createTokenKey txID index = Except.ok k := by
  refine ⟨formatUint_digits index, ?ex⟩
  have hzt : validFree tokenKeyPrefixBytes = true := by decide
  have hattrs : ∀ a ∈ [txID, formatUint index], validFree a = true := by
    intro a ha
    rcases List.mem_cons.mp ha with hh | hh
    · rw [hh]
      exact h1
    · simp only [List.mem_singleton] at hh
      rw [hh]
      exact validFree_formatUint index
  exact ⟨_, createCompositeKey_ok _ _ hzt hattrs⟩

/-- Witness for claim C10 at txID `"tx1"` and index 5. -/
theorem c10_create_token_key_total_witness :
    validFree [116, 120, 49] = true ∧ 5 < 2 ^ 64
    ∧ ((∀ b ∈ formatUint 5, 48 ≤ b ∧ b ≤ 57)
        ∧ ∃ k, createTokenKey [116, 120, 49] 5 = Except.ok k) :=
  ⟨by decide, by decide,
    c10_create_token_key_total [116, 120, 49] 5 (by decide) (by decide)⟩

end FTS
